import Mathlib

/-
Verification of the sudoku generation engine (class `Sudoku` in sudoku.py).

The board is embedded as a total function from (row, col) to the stored
integer; the Python list-of-lists only ever sees indices below 9, and all
operations below touch only such indices.  The global `random` module is
embedded as an explicit stream `s : ℕ → ℕ` of draws, threaded by index:
`random.choice` on a collection of size n reads one draw and uses it modulo
n, `random.randint(0, 8)` reads one draw and uses it modulo 9.
-/

set_option synthInstance.maxSize 1024
set_option maxRecDepth 8192
set_option maxHeartbeats 1000000

/-- A 9x9 board: a total function from (row, col) to the stored integer.
Cell value 0 means empty. -/
def Grid : Type := ℕ → ℕ → ℤ

/-- Write value `v` at cell `(r, c)` (Python `self._board[r][c] = v`). -/
def setCell (g : Grid) (r c : ℕ) (v : ℤ) : Grid :=
  fun a b => if a = r ∧ b = c then v else g a b

/-- The all-zero board built by `Sudoku.__init__`. -/
def emptyGrid : Grid := fun _ _ => 0

/-- `Sudoku.clear_board`: replaces the board with a fresh all-zero one. -/
def clear_board (_g : Grid) : Grid := fun _ _ => 0

/-- `Sudoku.get_value`. -/
def get_value (g : Grid) (row col : ℕ) : ℤ := g row col

/-- `Sudoku.insert_value`: stores the value with no validity or range check. -/
def insert_value (g : Grid) (row col : ℕ) (value : ℤ) : Grid :=
  setCell g row col value

/-- `Sudoku._is_num_valid`: scans row `row` (all 9 entries), column `col`
(all 9 rows), and the 3x3 box with corners at `row - row % 3`,
`col - col % 3`; returns `false` as soon as `num` is found. -/
def is_num_valid (g : Grid) (row col : ℕ) (num : ℤ) : Bool :=
  if (List.range 9).any (fun y => g row y == num) then false
  else if (List.range 9).any (fun x => g x col == num) then false
  else
    let start_row := row - row % 3
    let start_col := col - col % 3
    if (List.range 3).any (fun a =>
        (List.range 3).any (fun b => g (start_row + a) (start_col + b) == num))
    then false
    else true

/-- `Sudoku._generate_board(i, j)`, the backtracking filler, with an explicit
recursion bound: the Python recursion terminates because the cursor
`9 * i + j` strictly increases towards the base case `(8, 9)`, so any fuel
of at least `82 - (9 * i + j)` is never exhausted.  The candidate loop is the
Python `for num in range(1, 10)` with its early `return True`, including the
unconditional `self._board[i][j] = 0` at the end of each iteration. -/
def gen_board_aux : ℕ → ℕ → ℕ → Grid → Bool × Grid
  | 0, _, _, g => (false, g)
  | fuel + 1, i, j, g =>
    if i = 8 ∧ j = 9 then (true, g)
    else
      let ij := if j = 9 then (i + 1, 0) else (i, j)
      let i' := ij.1
      let j' := ij.2
      if g i' j' ≠ 0 then gen_board_aux fuel i' (j' + 1) g
      else
        (List.range' 1 9).foldl
          (fun st num =>
            if st.1 then st
            else if is_num_valid st.2 i' j' (num : ℤ) then
              let r := gen_board_aux fuel i' (j' + 1) (setCell st.2 i' j' (num : ℤ))
              if r.1 then r else (false, setCell r.2 i' j' 0)
            else (false, setCell st.2 i' j' 0))
          (false, g)

/-- The root call `Sudoku._generate_board(0, 0)`; 90 units of fuel exceed the
at most 82 frames the cursor can visit, so the bound is never reached. -/
def generate_board (g : Grid) : Bool × Grid := gen_board_aux 90 0 0 g

/-- `random.choice` on the tuple of a nonempty collection, driven by one draw
of the stream. -/
def choose (s : ℕ → ℕ) (k : ℕ) (l : List ℤ) : ℤ := l.getD (s k % l.length) 0

/-- One iteration of the outer loop of `Sudoku._generate_diagonals`: refill
`nums` with {1..9} when it is empty, then fill cells `(x, start + d)` for
`d < 3` where `start = x - x % 3`, drawing each value from `nums` and
removing it.  The state is (nums, next draw index, grid). -/
def diagStep (s : ℕ → ℕ) (x : ℕ) (st : List ℤ × ℕ × Grid) : List ℤ × ℕ × Grid :=
  let nums := if st.1.isEmpty then (List.range' 1 9).map Int.ofNat else st.1
  let start := x - x % 3
  (List.range 3).foldl
    (fun st2 d =>
      let num := choose s st2.2.1 st2.1
      (st2.1.erase num, st2.2.1 + 1, setCell st2.2.2 x (start + d) num))
    (nums, st.2)

/-- `Sudoku._generate_diagonals`, returning the new grid together with the
index of the next unused draw. -/
def generate_diagonals_from (s : ℕ → ℕ) (g : Grid) : Grid × ℕ :=
  let st := (List.range 9).foldl (fun st x => diagStep s x st) (([] : List ℤ), 0, g)
  (st.2.2, st.2.1)

/-- `Sudoku._generate_diagonals` (grid part only). -/
def generate_diagonals (s : ℕ → ℕ) (g : Grid) : Grid :=
  (generate_diagonals_from s g).1

/-- The rejection-sampling `while not field` loop inside
`Sudoku._remove_random_fields`: draw (row, col) pairs until a non-zero cell
is found.  `fuel` bounds the number of attempts, modelling the fact that the
Python loop has no bound of its own; `none` means the loop did not finish
within `fuel` attempts.  Returns the found cell and the next draw index. -/
def drawNonzero (s : ℕ → ℕ) : ℕ → ℕ → Grid → Option (ℕ × ℕ × ℕ)
  | 0, _, _ => none
  | fuel + 1, k, g =>
    let r := s k % 9
    let c := s (k + 1) % 9
    if g r c ≠ 0 then some (r, c, k + 2) else drawNonzero s fuel (k + 2) g

/-- The main loop of `Sudoku._remove_random_fields`: blank `n` cells, each
found by rejection sampling. -/
def removeFields (s : ℕ → ℕ) (fuel : ℕ) : ℕ → ℕ → Grid → Option (Grid × ℕ)
  | 0, k, g => some (g, k)
  | n + 1, k, g =>
    match drawNonzero s fuel k g with
    | none => none
    | some (r, c, k') => removeFields s fuel n k' (setCell g r c 0)

/-- The table `self._difficulty = {0: 35, 1: 43, 2: 55, 3: 60}`; `none`
models the `KeyError` raised by `self._difficulty[diff_chosen]`. -/
def difficulty (d : ℤ) : Option ℕ :=
  if d = 0 then some 35
  else if d = 1 then some 43
  else if d = 2 then some 55
  else if d = 3 then some 60
  else none

/-- Result of `Sudoku.generate`: `ok` carries the final board; `keyErr`
carries the board state at the moment `self._difficulty[diff_chosen]`
raises `KeyError`; `stuck` is the modelling artifact for a rejection loop
that did not finish within the given fuel. -/
inductive GenResult where
  | ok : Grid → GenResult
  | keyErr : Grid → GenResult
  | stuck : GenResult

/-- `Sudoku.generate`: seeder, then filler (whose Boolean result is
discarded), then remover.  The board is NOT cleared first, and the
difficulty lookup only happens when the remover starts. -/
def generate (s : ℕ → ℕ) (fuel : ℕ) (diff : ℤ) (g : Grid) : GenResult :=
  let seeded := generate_diagonals_from s g
  let filled := (generate_board seeded.1).2
  match difficulty diff with
  | none => GenResult.keyErr filled
  | some n =>
    match removeFields s fuel n seeded.2 filled with
    | none => GenResult.stuck
    | some p => GenResult.ok p.1

/-- Whether a `generate` run returned normally. -/
def GenResult.isOk : GenResult → Bool
  | GenResult.ok _ => true
  | _ => false

/-- Whether a `generate` run raised `KeyError`. -/
def GenResult.isKeyErr : GenResult → Bool
  | GenResult.keyErr _ => true
  | _ => false

/-- The board state carried by a `generate` outcome (`emptyGrid` for the
fuel artifact). -/
def GenResult.grid : GenResult → Grid
  | GenResult.ok g => g
  | GenResult.keyErr g => g
  | GenResult.stuck => emptyGrid

/-- Two in-range cells lie in the same row, column, or aligned 3x3 box. -/
def sameUnit (r c r' c' : ℕ) : Prop :=
  r = r' ∨ c = c' ∨ (r / 3 = r' / 3 ∧ c / 3 = c' / 3)

instance sameUnitDec (r c r' c' : ℕ) : Decidable (sameUnit r c r' c') := by
  unfold sameUnit; infer_instance

/-- The mid-generation invariant: every placed (non-zero) in-range value is
in [1,9], and a placed value differs from the value of every other cell in
its row, column, or box. -/
def consistent (g : Grid) : Prop :=
  (∀ r < 9, ∀ c < 9, g r c ≠ 0 → 1 ≤ g r c ∧ g r c ≤ 9) ∧
  (∀ r < 9, ∀ c < 9, ∀ r' < 9, ∀ c' < 9,
    (r, c) ≠ (r', c') → sameUnit r c r' c' → g r c ≠ 0 → g r c ≠ g r' c')

/-- A fully solved grid: every in-range cell holds a value in [1,9] and no
two distinct cells of a common row, column, or box hold the same value. -/
def solvedGrid (g : Grid) : Prop :=
  (∀ r < 9, ∀ c < 9, 1 ≤ g r c ∧ g r c ≤ 9) ∧
  (∀ r < 9, ∀ c < 9, ∀ r' < 9, ∀ c' < 9,
    (r, c) ≠ (r', c') → sameUnit r c r' c' → g r c ≠ g r' c')

/-- `g'` completes `g`: they agree on every in-range cell non-zero in `g`. -/
def completes (g g' : Grid) : Prop :=
  ∀ r < 9, ∀ c < 9, g r c ≠ 0 → g' r c = g r c

/-- Number of non-zero in-range cells, counting cell (r, c) as index
9r + c in [0, 81). -/
def countNonzero (g : Grid) : ℕ :=
  ((Finset.range 81).filter (fun m => g (m / 9) (m % 9) ≠ 0)).card

instance consistentDec (g : Grid) : Decidable (consistent g) := by
  unfold consistent; infer_instance

instance solvedGridDec (g : Grid) : Decidable (solvedGrid g) := by
  unfold solvedGrid; infer_instance

instance completesDec (g g' : Grid) : Decidable (completes g g') := by
  unfold completes; infer_instance

/-! ### Basic cell lemmas -/

theorem setCell_self (g : Grid) (r c : ℕ) (v : ℤ) : setCell g r c v r c = v := by
  simp [setCell]

theorem setCell_other (g : Grid) (r c : ℕ) (v : ℤ) (a b : ℕ)
    (h : ¬(a = r ∧ b = c)) : setCell g r c v a b = g a b := by
  simp [setCell, h]

theorem setCell_cancel (g : Grid) (r c : ℕ) (v : ℤ) (h : g r c = v) :
    setCell g r c v = g := by
  funext a b
  by_cases hab : a = r ∧ b = c
  · obtain ⟨ha, hb⟩ := hab
    subst ha; subst hb
    simp [setCell, h]
  · simp [setCell, hab]

/-! ### C10: raw cell access -/

/-- C10: for in-range (row, col) and any integer value, `insert_value`
stores the value unchecked, `get_value` reads it back exactly, and every
other cell is untouched. -/
theorem insert_value_get_value (g : Grid) (row col : ℕ) (v : ℤ)
    (r' c' : ℕ) (hr : row < 9) (hc : col < 9) (hne : (r', c') ≠ (row, col)) :
    get_value (insert_value g row col v) row col = v ∧
    get_value (insert_value g row col v) r' c' = g r' c' := by
  constructor
  · simp [get_value, insert_value, setCell]
  · have h : ¬(r' = row ∧ c' = col) := by
      intro ⟨h1, h2⟩
      exact hne (by simp [h1, h2])
    simp [get_value, insert_value, setCell, h]

theorem insert_value_get_value_witness :
    get_value (insert_value emptyGrid 2 3 (-7)) 2 3 = -7 ∧
    get_value (insert_value emptyGrid 2 3 (-7)) 2 4 = emptyGrid 2 4 :=
  insert_value_get_value emptyGrid 2 3 (-7) 2 4 (by decide) (by decide) (by decide)

/-! ### C8: determinism up to the random source -/

/-- C8: `generate` consumes only the explicit random stream: two runs from
the same all-zero board that read identical draw streams return the same
result. -/
theorem generate_deterministic (s1 s2 : ℕ → ℕ) (fuel : ℕ) (L : ℤ)
    (h : ∀ n, s1 n = s2 n) :
    generate s1 fuel L emptyGrid = generate s2 fuel L emptyGrid := by
  have hs : s1 = s2 := funext h
  rw [hs]

theorem generate_deterministic_witness :
    generate (fun _ => 0) 2 0 emptyGrid = generate (fun n => n - n) 2 0 emptyGrid :=
  generate_deterministic (fun _ => 0) (fun n => n - n) 2 0
    (fun n => (Nat.sub_self n).symm)

/-! ### The validity predicate -/

/-- What `_is_num_valid` actually decides: it returns `false` exactly when
`num` occurs somewhere in row `row`, in column `col`, or in the 3x3 block
whose corner is `(row - row % 3, col - col % 3)` — the scan does NOT skip
the candidate cell `(row, col)` itself. -/
theorem is_num_valid_false_iff (g : Grid) (row col : ℕ) (num : ℤ) :
    is_num_valid g row col num = false ↔
      (∃ y < 9, g row y = num) ∨ (∃ x < 9, g x col = num) ∨
      (∃ a < 3, ∃ b < 3, g (row - row % 3 + a) (col - col % 3 + b) = num) := by
  unfold is_num_valid
  split_ifs with h1 h2 h3 <;>
    simp_all [List.any_eq_true, List.mem_range, beq_iff_eq] <;> tauto

theorem is_num_valid_true_iff (g : Grid) (row col : ℕ) (num : ℤ) :
    is_num_valid g row col num = true ↔
      ¬((∃ y < 9, g row y = num) ∨ (∃ x < 9, g x col = num) ∨
        (∃ a < 3, ∃ b < 3, g (row - row % 3 + a) (col - col % 3 + b) = num)) := by
  rw [← is_num_valid_false_iff]
  cases h : is_num_valid g row col num <;> simp [h]

/-! ### The candidate loop of the filler, named for reasoning -/

/-- The body of the `for num in range(1, 10)` loop of `_generate_board`,
as iterated by `List.foldl` in `gen_board_aux`. -/
def tryCell (fuel i' j' : ℕ) (st : Bool × Grid) (num : ℕ) : Bool × Grid :=
  if st.1 then st
  else if is_num_valid st.2 i' j' (num : ℤ) then
    let r := gen_board_aux fuel i' (j' + 1) (setCell st.2 i' j' (num : ℤ))
    if r.1 then r else (false, setCell r.2 i' j' 0)
  else (false, setCell st.2 i' j' 0)

theorem gen_board_aux_succ (fuel i j : ℕ) (g : Grid) :
    gen_board_aux (fuel + 1) i j g =
      if i = 8 ∧ j = 9 then (true, g)
      else
        if g (if j = 9 then (i + 1, 0) else (i, j)).1
            (if j = 9 then (i + 1, 0) else (i, j)).2 ≠ 0 then
          gen_board_aux fuel (if j = 9 then (i + 1, 0) else (i, j)).1
            ((if j = 9 then (i + 1, 0) else (i, j)).2 + 1) g
        else
          (List.range' 1 9).foldl
            (tryCell fuel (if j = 9 then (i + 1, 0) else (i, j)).1
              (if j = 9 then (i + 1, 0) else (i, j)).2) (false, g) := rfl

theorem setCell_setCell (g : Grid) (r c : ℕ) (v w : ℤ) :
    setCell (setCell g r c v) r c w = setCell g r c w := by
  funext a b
  by_cases hab : a = r ∧ b = c <;> simp [setCell, hab]

/-- Once an iteration has succeeded, the remaining iterations are no-ops
(the Python loop has already returned). -/
theorem tryCell_exit (fuel i j : ℕ) :
    ∀ (l : List ℕ) (st : Bool × Grid), st.1 = true →
      l.foldl (tryCell fuel i j) st = st := by
  intro l
  induction l with
  | nil => intro st _; rfl
  | cons num l ih =>
    intro st h
    simp only [List.foldl_cons, tryCell, h, if_true]
    exact ih st h

/-- If the whole candidate loop fails, the board is back to its state at
loop entry, provided each recursive call restores the board on failure and
the current cell was empty. -/
theorem tryCell_restore (fuel i j : ℕ) (g : Grid) (hg : g i j = 0)
    (ihf : ∀ g', (gen_board_aux fuel i (j + 1) g').1 = false →
      (gen_board_aux fuel i (j + 1) g').2 = g') :
    ∀ l : List ℕ, (l.foldl (tryCell fuel i j) (false, g)).1 = false →
      (l.foldl (tryCell fuel i j) (false, g)).2 = g := by
  intro l
  induction l with
  | nil => intro _; rfl
  | cons num l ih =>
    intro h
    rw [List.foldl_cons] at h ⊢
    by_cases hv : is_num_valid g i j (num : ℤ) = true
    · by_cases hr : (gen_board_aux fuel i (j + 1) (setCell g i j (num : ℤ))).1 = true
      · exfalso
        have hstep : tryCell fuel i j (false, g) num =
            gen_board_aux fuel i (j + 1) (setCell g i j (num : ℤ)) := by
          simp [tryCell, hv, hr]
        rw [hstep] at h
        rw [tryCell_exit fuel i j l _ hr] at h
        rw [hr] at h
        exact Bool.true_eq_false.mp h
      · have hr' : (gen_board_aux fuel i (j + 1) (setCell g i j (num : ℤ))).1 = false := by
          simpa using hr
        have hrest : (gen_board_aux fuel i (j + 1) (setCell g i j (num : ℤ))).2 =
            setCell g i j (num : ℤ) := ihf _ hr'
        have hstep2 : tryCell fuel i j (false, g) num = (false, g) := by
          simp only [tryCell, Bool.false_eq_true, if_false, hv, if_true, hr', hrest,
            setCell_setCell]
          rw [setCell_cancel g i j 0 hg]
        rw [hstep2] at h ⊢
        exact ih h
    · have hstep : tryCell fuel i j (false, g) num = (false, g) := by
        simp only [tryCell, Bool.false_eq_true, if_false, hv]
        rw [setCell_cancel g i j 0 hg]
      rw [hstep] at h ⊢
      exact ih h

/-- Frame-exact restoration: whenever a filler call reports failure, the
board it returns is exactly the board it was given. -/
theorem gen_board_aux_restore :
    ∀ fuel i j (g : Grid), (gen_board_aux fuel i j g).1 = false →
      (gen_board_aux fuel i j g).2 = g := by
  intro fuel
  induction fuel with
  | zero => intro i j g _; rfl
  | succ fuel ih =>
    intro i j g h
    rw [gen_board_aux_succ] at h ⊢
    by_cases hbase : i = 8 ∧ j = 9
    · rw [if_pos hbase] at h
      exact absurd h (by simp)
    · rw [if_neg hbase] at h ⊢
      by_cases hcell : g (if j = 9 then (i + 1, 0) else (i, j)).1
          (if j = 9 then (i + 1, 0) else (i, j)).2 ≠ 0
      · rw [if_pos hcell] at h ⊢
        exact ih _ _ g h
      · rw [if_neg hcell] at h ⊢
        have hz : g (if j = 9 then (i + 1, 0) else (i, j)).1
            (if j = 9 then (i + 1, 0) else (i, j)).2 = 0 := by
          by_contra hc; exact hcell hc
        exact tryCell_restore fuel _ _ g hz (fun g' => ih _ _ g') _ h

/-- The concrete board whose row 0 holds 1..8 in columns 0..7 and whose cell
(1, 8) holds 9: cell (0, 8) admits no value at all, so the root filler call
fails immediately. -/
def stuckGrid : Grid :=
  setCell (setCell (setCell (setCell (setCell (setCell (setCell (setCell (setCell
    emptyGrid 0 0 1) 0 1 2) 0 2 3) 0 3 4) 0 4 5) 0 5 6) 0 6 7) 0 7 8) 1 8 9

/-! ### C9: top-level filler failure leaves the board unchanged -/

/-- Root-level restoration, for reuse. -/
theorem generate_board_restore (g : Grid)
    (h : (generate_board g).1 = false) : (generate_board g).2 = g :=
  gen_board_aux_restore 90 0 0 g h

/-- C9: if the root call of the backtracking filler returns `false`, the
board after the call is cell-for-cell the board at the moment of the call. -/
theorem generate_board_failure_restores (g : Grid)
    (h : (generate_board g).1 = false) : (generate_board g).2 = g :=
  generate_board_restore g h

theorem generate_board_failure_restores_witness :
    (generate_board stuckGrid).1 = false ∧ (generate_board stuckGrid).2 = stuckGrid :=
  ⟨by decide, generate_board_failure_restores stuckGrid (by decide)⟩

/-! ### Units and the validity predicate -/

theorem sub_mod_three (r : ℕ) : r - r % 3 = 3 * (r / 3) := by omega

theorem sameUnit_symm {r c r' c' : ℕ} (h : sameUnit r c r' c') : sameUnit r' c' r c := by
  unfold sameUnit at h ⊢
  tauto

theorem sameUnit_refl (r c : ℕ) : sameUnit r c r c := Or.inl rfl

/-- `_is_num_valid` succeeds exactly when `num` is absent from every cell
sharing a row, column, or box with `(r, c)` — the cell itself included. -/
theorem is_num_valid_true_unit (g : Grid) (r c : ℕ) (v : ℤ)
    (hr : r < 9) (hc : c < 9) :
    is_num_valid g r c v = true ↔
      ∀ x < 9, ∀ y < 9, sameUnit r c x y → g x y ≠ v := by
  rw [is_num_valid_true_iff]
  constructor
  · intro h x hx y hy hu hxy
    apply h
    rcases hu with h1 | h2 | ⟨h3, h4⟩
    · exact Or.inl ⟨y, hy, by rw [h1]; exact hxy⟩
    · exact Or.inr (Or.inl ⟨x, hx, by rw [h2]; exact hxy⟩)
    · refine Or.inr (Or.inr ⟨x % 3, Nat.mod_lt _ (by norm_num), y % 3,
        Nat.mod_lt _ (by norm_num), ?_⟩)
      have hx3 : r - r % 3 + x % 3 = x := by omega
      have hy3 : c - c % 3 + y % 3 = y := by omega
      rw [hx3, hy3]
      exact hxy
  · intro h hocc
    rcases hocc with ⟨y, hy, hgy⟩ | ⟨x, hx, hgx⟩ | ⟨a, ha, b, hb, hgab⟩
    · exact h r hr y hy (Or.inl rfl) hgy
    · exact h x hx c hc (Or.inr (Or.inl rfl)) hgx
    · refine h (r - r % 3 + a) (by omega) (c - c % 3 + b) (by omega) ?_ hgab
      refine Or.inr (Or.inr ⟨?_, ?_⟩) <;> omega

/-- Placing a value that passes `_is_num_valid` preserves the
mid-generation invariant. -/
theorem consistent_setCell (g : Grid) (r c : ℕ) (v : ℤ)
    (hcons : consistent g) (hr : r < 9) (hc : c < 9) (hz : g r c = 0)
    (hv1 : 1 ≤ v) (hv9 : v ≤ 9) (hval : is_num_valid g r c v = true) :
    consistent (setCell g r c v) := by
  rw [is_num_valid_true_unit g r c v hr hc] at hval
  obtain ⟨hrange, hdist⟩ := hcons
  constructor
  · intro x hx y hy hne
    by_cases hxy : x = r ∧ y = c
    · rw [hxy.1, hxy.2, setCell_self]
      exact ⟨hv1, hv9⟩
    · rw [setCell_other _ _ _ _ _ _ hxy] at hne ⊢
      exact hrange x hx y hy hne
  · intro x hx y hy x' hx' y' hy' hne hu hnz
    by_cases hxy : x = r ∧ y = c
    · have hxy' : ¬(x' = r ∧ y' = c) := by
        intro hh
        exact hne (by rw [hxy.1, hxy.2, hh.1, hh.2])
      rw [setCell_other _ _ _ _ _ _ hxy']
      rw [hxy.1, hxy.2, setCell_self]
      intro heq
      have hu2 : sameUnit r c x' y' := by
        rw [← hxy.1, ← hxy.2]
        exact hu
      exact hval x' hx' y' hy' hu2 heq.symm
    · rw [setCell_other _ _ _ _ _ _ hxy] at hnz ⊢
      by_cases hxy' : x' = r ∧ y' = c
      · rw [hxy'.1, hxy'.2, setCell_self]
        intro heq
        have hu2 : sameUnit r c x y := by
          rw [← hxy'.1, ← hxy'.2]
          exact sameUnit_symm hu
        exact hval x hx y hy hu2 heq
      · rw [setCell_other _ _ _ _ _ _ hxy']
        exact hdist x hx y hy x' hx' y' hy' hne hu hnz

/-- If a solved grid `gs` agrees with `g` on all non-zero cells and cell
`(r, c)` of `g` is empty, then the value `gs` holds there passes
`_is_num_valid` on `g`. -/
theorem is_num_valid_of_solved (g gs : Grid) (r c : ℕ)
    (hsol : solvedGrid gs)
    (hagree : ∀ x < 9, ∀ y < 9, g x y ≠ 0 → g x y = gs x y)
    (hr : r < 9) (hc : c < 9) (hz : g r c = 0) :
    is_num_valid g r c (gs r c) = true := by
  rw [is_num_valid_true_unit g r c _ hr hc]
  intro x hx y hy hu heq
  obtain ⟨hrange, hdist⟩ := hsol
  have hv1 : 1 ≤ gs r c := (hrange r hr c hc).1
  have hnz : g x y ≠ 0 := by
    rw [heq]
    omega
  have hgs : gs x y = gs r c := by
    rw [← hagree x hx y hy hnz, heq]
  by_cases hcell : (x, y) = (r, c)
  · have h12 : x = r ∧ y = c := by simpa using hcell
    rw [h12.1, h12.2, hz] at heq
    omega
  · exact hdist x hx y hy r hr c hc hcell (sameUnit_symm hu) hgs

/-! ### The candidate loop: success and failure analysis -/

/-- One loop iteration from a clean state either succeeds or returns the
state unchanged. -/
theorem tryCell_step_cases (fuel i j : ℕ) (g : Grid) (hg : g i j = 0) (num : ℕ) :
    (tryCell fuel i j (false, g) num).1 = true ∨
    tryCell fuel i j (false, g) num = (false, g) := by
  by_cases hv : is_num_valid g i j (num : ℤ) = true
  · by_cases hr : (gen_board_aux fuel i (j + 1) (setCell g i j (num : ℤ))).1 = true
    · left
      simp [tryCell, hv, hr]
    · right
      have hr' : (gen_board_aux fuel i (j + 1) (setCell g i j (num : ℤ))).1 = false := by
        simpa using hr
      have hrest := gen_board_aux_restore fuel i (j + 1) _ hr'
      simp only [tryCell, Bool.false_eq_true, if_false, hv, if_true, hr', hrest,
        setCell_setCell]
      rw [setCell_cancel g i j 0 hg]
  · right
    simp only [tryCell, Bool.false_eq_true, if_false, hv]
    rw [setCell_cancel g i j 0 hg]

/-- If some candidate in the list succeeds from the clean state, the whole
loop succeeds. -/
theorem tryCell_success_of_mem (fuel i j : ℕ) (g : Grid) (hg : g i j = 0) :
    ∀ (l : List ℕ) (num₀ : ℕ), num₀ ∈ l →
      (tryCell fuel i j (false, g) num₀).1 = true →
      (l.foldl (tryCell fuel i j) (false, g)).1 = true := by
  intro l
  induction l with
  | nil =>
    intro num₀ h
    exact absurd h (List.not_mem_nil _)
  | cons num l ih =>
    intro num₀ hmem hsucc
    rw [List.foldl_cons]
    rcases tryCell_step_cases fuel i j g hg num with hT | hF
    · rw [tryCell_exit fuel i j l _ hT]
      exact hT
    · rw [hF]
      rcases List.mem_cons.mp hmem with heq | hmem'
      · rw [heq, hF] at hsucc
        exact absurd hsucc (by simp)
      · exact ih num₀ hmem' hsucc

/-- If the loop succeeds, some candidate succeeded from the clean state and
the loop's result is that candidate's result. -/
theorem tryCell_fold_true (fuel i j : ℕ) (g : Grid) (hg : g i j = 0) :
    ∀ l : List ℕ, (l.foldl (tryCell fuel i j) (false, g)).1 = true →
      ∃ num ∈ l, (tryCell fuel i j (false, g) num).1 = true ∧
        l.foldl (tryCell fuel i j) (false, g) = tryCell fuel i j (false, g) num := by
  intro l
  induction l with
  | nil =>
    intro h
    exact absurd h (by simp)
  | cons num l ih =>
    intro h
    rw [List.foldl_cons] at h
    rcases tryCell_step_cases fuel i j g hg num with hT | hF
    · refine ⟨num, List.mem_cons_self _ _, hT, ?_⟩
      rw [List.foldl_cons, tryCell_exit fuel i j l _ hT]
    · rw [hF] at h
      obtain ⟨num', hmem, hsucc, heq⟩ := ih h
      refine ⟨num', List.mem_cons_of_mem _ hmem, hsucc, ?_⟩
      rw [List.foldl_cons, hF]
      exact heq

/-- A successful iteration means: the candidate passed `_is_num_valid`, the
recursive call on the updated board succeeded, and the iteration's result is
that recursive call's result. -/
theorem tryCell_true_elim (fuel i j : ℕ) (g : Grid) (num : ℕ)
    (h : (tryCell fuel i j (false, g) num).1 = true) :
    is_num_valid g i j (num : ℤ) = true ∧
    (gen_board_aux fuel i (j + 1) (setCell g i j (num : ℤ))).1 = true ∧
    tryCell fuel i j (false, g) num =
      gen_board_aux fuel i (j + 1) (setCell g i j (num : ℤ)) := by
  by_cases hv : is_num_valid g i j (num : ℤ) = true
  · by_cases hr : (gen_board_aux fuel i (j + 1) (setCell g i j (num : ℤ))).1 = true
    · exact ⟨hv, hr, by simp [tryCell, hv, hr]⟩
    · exfalso
      have hr' : (gen_board_aux fuel i (j + 1) (setCell g i j (num : ℤ))).1 = false := by
        simpa using hr
      simp [tryCell, hv, hr'] at h
  · exfalso
    simp [tryCell, hv] at h

/-! ### Completeness of the filler -/

/-- If some solved grid agrees with the board on its non-zero cells, the
filler succeeds (from any cursor reachable from the root call). -/
theorem gen_board_aux_complete :
    ∀ fuel i j (g gs : Grid), i ≤ 8 → j ≤ 9 → 82 ≤ fuel + 9 * i + j →
      solvedGrid gs →
      (∀ x < 9, ∀ y < 9, g x y ≠ 0 → g x y = gs x y) →
      (gen_board_aux fuel i j g).1 = true := by
  intro fuel
  induction fuel with
  | zero =>
    intro i j g gs hi hj hfuel _ _
    omega
  | succ fuel ih =>
    intro i j g gs hi hj hfuel hsol hagree
    rw [gen_board_aux_succ]
    by_cases hbase : i = 8 ∧ j = 9
    · rw [if_pos hbase]
    · rw [if_neg hbase]
      have hij : (if j = 9 then (i + 1, 0) else (i, j)).1 ≤ 8 ∧
          (if j = 9 then (i + 1, 0) else (i, j)).2 ≤ 8 ∧
          9 * (if j = 9 then (i + 1, 0) else (i, j)).1 +
            (if j = 9 then (i + 1, 0) else (i, j)).2 = 9 * i + j := by
        by_cases h9 : j = 9
        · rw [if_pos h9]
          have : ¬(i = 8) := fun h8 => hbase ⟨h8, h9⟩
          refine ⟨by omega, by omega, by omega⟩
        · rw [if_neg h9]
          exact ⟨hi, by omega, rfl⟩
      set i' := (if j = 9 then (i + 1, 0) else (i, j)).1 with hi'
      set j' := (if j = 9 then (i + 1, 0) else (i, j)).2 with hj'
      obtain ⟨hi8, hj8, hcur⟩ := hij
      by_cases hcell : g i' j' ≠ 0
      · rw [if_pos hcell]
        exact ih i' (j' + 1) g gs hi8 (by omega) (by omega) hsol hagree
      · rw [if_neg hcell]
        have hz : g i' j' = 0 := by
          by_contra hc
          exact hcell hc
        have hv1 : 1 ≤ gs i' j' ∧ gs i' j' ≤ 9 :=
          hsol.1 i' (by omega) j' (by omega)
        set v : ℤ := gs i' j' with hv
        set num : ℕ := v.toNat with hnum
        have hcast : (num : ℤ) = v := Int.toNat_of_nonneg (by omega)
        have hmem : num ∈ List.range' 1 9 := by
          rw [List.mem_range'_1]
          omega
        have hval : is_num_valid g i' j' (num : ℤ) = true := by
          rw [hcast]
          exact is_num_valid_of_solved g gs i' j' hsol hagree (by omega) (by omega) hz
        have hchild : (gen_board_aux fuel i' (j' + 1) (setCell g i' j' (num : ℤ))).1
            = true := by
          apply ih i' (j' + 1) (setCell g i' j' (num : ℤ)) gs hi8 (by omega) (by omega) hsol
          intro x hx y hy hnz
          by_cases hxy : x = i' ∧ y = j'
          · rw [hxy.1, hxy.2, setCell_self, hcast]
          · rw [setCell_other _ _ _ _ _ _ hxy] at hnz ⊢
            exact hagree x hx y hy hnz
        have hsucc : (tryCell fuel i' j' (false, g) num).1 = true := by
          simp [tryCell, hval, hchild]
        exact tryCell_success_of_mem fuel i' j' g hz _ num hmem hsucc

/-! ### Soundness of the filler -/

/-- When the filler succeeds on a consistent board: the result is
consistent, cells strictly before the cursor and non-zero cells are
untouched, and every in-range cell from the cursor on is filled. -/
theorem gen_board_aux_sound :
    ∀ fuel i j (g : Grid), i ≤ 8 → j ≤ 9 → 82 ≤ fuel + 9 * i + j →
      consistent g → (gen_board_aux fuel i j g).1 = true →
      consistent (gen_board_aux fuel i j g).2 ∧
      (∀ r c, 9 * r + c < 9 * i + j → (gen_board_aux fuel i j g).2 r c = g r c) ∧
      (∀ r c, g r c ≠ 0 → (gen_board_aux fuel i j g).2 r c = g r c) ∧
      (∀ r < 9, ∀ c < 9, 9 * i + j ≤ 9 * r + c →
        (gen_board_aux fuel i j g).2 r c ≠ 0) := by
  intro fuel
  induction fuel with
  | zero =>
    intro i j g hi hj hfuel _ _
    omega
  | succ fuel ih =>
    intro i j g hi hj hfuel hcons htrue
    rw [gen_board_aux_succ] at htrue ⊢
    by_cases hbase : i = 8 ∧ j = 9
    · rw [if_pos hbase] at htrue ⊢
      obtain ⟨h8, h9⟩ := hbase
      refine ⟨hcons, fun r c _ => rfl, fun r c _ => rfl, ?_⟩
      intro r hr c hc hge
      exfalso
      omega
    · rw [if_neg hbase] at htrue ⊢
      have hij : (if j = 9 then (i + 1, 0) else (i, j)).1 ≤ 8 ∧
          (if j = 9 then (i + 1, 0) else (i, j)).2 ≤ 8 ∧
          9 * (if j = 9 then (i + 1, 0) else (i, j)).1 +
            (if j = 9 then (i + 1, 0) else (i, j)).2 = 9 * i + j := by
        by_cases h9 : j = 9
        · rw [if_pos h9]
          have : ¬(i = 8) := fun h8 => hbase ⟨h8, h9⟩
          refine ⟨by omega, by omega, by omega⟩
        · rw [if_neg h9]
          exact ⟨hi, by omega, rfl⟩
      set i' := (if j = 9 then (i + 1, 0) else (i, j)).1 with hi'
      set j' := (if j = 9 then (i + 1, 0) else (i, j)).2 with hj'
      obtain ⟨hi8, hj8, hcur⟩ := hij
      by_cases hcell : g i' j' ≠ 0
      · rw [if_pos hcell] at htrue ⊢
        obtain ⟨ihc, ihbef, ihnz, ihfill⟩ :=
          ih i' (j' + 1) g hi8 (by omega) (by omega) hcons htrue
        refine ⟨ihc, ?_, ihnz, ?_⟩
        · intro r c hlt
          exact ihbef r c (by omega)
        · intro r hr c hc hge
          by_cases hp : 9 * r + c = 9 * i' + j'
          · have hrc : r = i' ∧ c = j' := by omega
            rw [hrc.1, hrc.2, ihnz i' j' hcell]
            exact hcell
          · exact ihfill r hr c hc (by omega)
      · rw [if_neg hcell] at htrue ⊢
        have hz : g i' j' = 0 := by
          by_contra hc
          exact hcell hc
        obtain ⟨num, hmem, hsucc, heq⟩ := tryCell_fold_true fuel i' j' g hz _ htrue
        obtain ⟨hval, hchild, hres⟩ := tryCell_true_elim fuel i' j' g num hsucc
        have hfold : (List.range' 1 9).foldl (tryCell fuel i' j') (false, g) =
            gen_board_aux fuel i' (j' + 1) (setCell g i' j' (num : ℤ)) := by
          rw [heq, hres]
        rw [hfold]
        have hnum : 1 ≤ num ∧ num < 10 := List.mem_range'_1.mp hmem
        have hcons1 : consistent (setCell g i' j' (num : ℤ)) :=
          consistent_setCell g i' j' (num : ℤ) hcons (by omega) (by omega) hz
            (by exact_mod_cast hnum.1) (by exact_mod_cast Nat.lt_succ_iff.mp hnum.2) hval
        obtain ⟨ihc, ihbef, ihnz, ihfill⟩ :=
          ih i' (j' + 1) (setCell g i' j' (num : ℤ)) hi8 (by omega) (by omega)
            hcons1 hchild
        refine ⟨ihc, ?_, ?_, ?_⟩
        · intro r c hlt
          have hne : ¬(r = i' ∧ c = j') := by
            intro hh
            rw [hh.1, hh.2] at hlt
            omega
          rw [ihbef r c (by omega), setCell_other _ _ _ _ _ _ hne]
        · intro r c hnz0
          have hne : ¬(r = i' ∧ c = j') := by
            intro hh
            rw [hh.1, hh.2] at hnz0
            exact hnz0 hz
          have h1 : setCell g i' j' (num : ℤ) r c = g r c :=
            setCell_other _ _ _ _ _ _ hne
          rw [ihnz r c (by rw [h1]; exact hnz0), h1]
        · intro r hr c hc hge
          by_cases hp : 9 * r + c = 9 * i' + j'
          · have hrc : r = i' ∧ c = j' := by omega
            rw [hrc.1, hrc.2, ihbef i' j' (by omega), setCell_self]
            exact Int.natCast_ne_zero.mpr (by omega)
          · exact ihfill r hr c hc (by omega)

/-- Root-call soundness, packaged: a successful fill of a consistent board
yields a solved board that completes it. -/
theorem generate_board_true_solved (g : Grid) (hcons : consistent g)
    (h : (generate_board g).1 = true) :
    solvedGrid (generate_board g).2 ∧ completes g (generate_board g).2 := by
  obtain ⟨hc, _, hnz, hfill⟩ :=
    gen_board_aux_sound 90 0 0 g (by omega) (by omega) (by omega) hcons h
  refine ⟨⟨?_, ?_⟩, ?_⟩
  · intro r hr c hc9
    exact hc.1 r hr c hc9 (hfill r hr c hc9 (by omega))
  · intro r hr c hc9 r' hr' c' hc9' hne hu
    exact hc.2 r hr c hc9 r' hr' c' hc9' hne hu (hfill r hr c hc9 (by omega))
  · intro r hr c hc9 hnz0
    exact hnz r c hnz0

/-- Every in-range cell of a solved grid is non-zero. -/
theorem solvedGrid_nonzero (g : Grid) (h : solvedGrid g) :
    ∀ r < 9, ∀ c < 9, g r c ≠ 0 := by
  intro r hr c hc
  have := h.1 r hr c hc
  omega

/-! ### C5: the backtracking filler decides completability -/

/-- C5: on a consistent board, the root filler call returns `true` exactly
when the zero cells can be completed into a fully solved grid (and the DFS
details — row-major order, skipping non-zero cells, candidates 1..9 with
first success, undo on failure, base case past (8, 8) — are the definition
of `gen_board_aux`). -/
theorem generate_board_true_iff (g : Grid) (hcons : consistent g) :
    (generate_board g).1 = true ↔
      ∃ gs : Grid, solvedGrid gs ∧ completes g gs := by
  constructor
  · intro h
    obtain ⟨hsol, hcomp⟩ := generate_board_true_solved g hcons h
    exact ⟨(generate_board g).2, hsol, hcomp⟩
  · rintro ⟨gs, hsol, hcomp⟩
    exact gen_board_aux_complete 90 0 0 g gs (by omega) (by omega) (by omega) hsol
      (fun x hx y hy hnz => (hcomp x hx y hy hnz).symm)

theorem generate_board_true_iff_witness :
    (generate_board emptyGrid).1 = true ↔
      ∃ gs : Grid, solvedGrid gs ∧ completes emptyGrid gs :=
  generate_board_true_iff emptyGrid (by decide)

/-! ### C1: what the validity predicate actually excludes -/

/-- C1 (amended): for in-range coordinates and a candidate value in 1..9,
`_is_num_valid` returns `false` iff the value already occurs at SOME cell of
the row, the column, or the box — the candidate cell `(row, col)` itself
included, i.e. it is NOT excluded from the scan. -/
theorem is_num_valid_false_iff_any_occurrence (g : Grid) (row col : ℕ) (num : ℤ)
    (hr : row < 9) (hc : col < 9) (h1 : 1 ≤ num) (h9 : num ≤ 9) :
    is_num_valid g row col num = false ↔
      ∃ x < 9, ∃ y < 9, sameUnit row col x y ∧ g x y = num := by
  have ht := is_num_valid_true_unit g row col num hr hc
  constructor
  · intro hf
    by_contra hno
    push_neg at hno
    have : is_num_valid g row col num = true :=
      ht.mpr (fun x hx y hy hu => hno x hx y hy hu)
    rw [this] at hf
    exact absurd hf (by simp)
  · rintro ⟨x, hx, y, hy, hu, hocc⟩
    cases hb : is_num_valid g row col num with
    | false => rfl
    | true => exact absurd hocc (ht.mp hb x hx y hy hu)

theorem is_num_valid_false_iff_any_occurrence_witness :
    is_num_valid (setCell emptyGrid 0 0 1) 0 0 1 = false ↔
      ∃ x < 9, ∃ y < 9, sameUnit 0 0 x y ∧ setCell emptyGrid 0 0 1 x y = 1 :=
  is_num_valid_false_iff_any_occurrence (setCell emptyGrid 0 0 1) 0 0 1
    (by decide) (by decide) (by decide) (by decide)

/-- C1 counterexample: on the board whose only non-zero cell is `(0,0) = 1`,
the value 1 occurs at no cell other than the candidate cell itself, yet
`_is_num_valid(0, 0, 1)` returns `false` — the candidate cell is scanned. -/
theorem is_num_valid_candidate_cell_cex :
    is_num_valid (setCell emptyGrid 0 0 1) 0 0 1 = false ∧
    ∀ x < 9, ∀ y < 9, ¬(x = 0 ∧ y = 0) → setCell emptyGrid 0 0 1 x y ≠ 1 := by
  decide

/-! ### The filler never changes a non-zero cell (any board, any outcome) -/

theorem gen_board_aux_keep :
    ∀ fuel i j (g : Grid) (r c : ℕ), g r c ≠ 0 →
      (gen_board_aux fuel i j g).2 r c = g r c := by
  intro fuel
  induction fuel with
  | zero =>
    intro i j g r c _
    rfl
  | succ fuel ih =>
    intro i j g r c hnz
    rw [gen_board_aux_succ]
    by_cases hbase : i = 8 ∧ j = 9
    · rw [if_pos hbase]
    · rw [if_neg hbase]
      set i' := (if j = 9 then (i + 1, 0) else (i, j)).1 with hi'
      set j' := (if j = 9 then (i + 1, 0) else (i, j)).2 with hj'
      by_cases hcell : g i' j' ≠ 0
      · rw [if_pos hcell]
        exact ih i' (j' + 1) g r c hnz
      · rw [if_neg hcell]
        have hz : g i' j' = 0 := by
          by_contra hcc
          exact hcell hcc
        cases hb : ((List.range' 1 9).foldl (tryCell fuel i' j') (false, g)).1 with
        | false =>
          rw [tryCell_restore fuel i' j' g hz
            (fun g' => gen_board_aux_restore fuel i' (j' + 1) g') _ hb]
        | true =>
          obtain ⟨num, hmem, hsucc, heq⟩ := tryCell_fold_true fuel i' j' g hz _ hb
          obtain ⟨hval, hchild, hres⟩ := tryCell_true_elim fuel i' j' g num hsucc
          rw [heq, hres]
          have hne : ¬(r = i' ∧ c = j') := by
            intro hh
            rw [hh.1, hh.2] at hnz
            exact hnz hz
          have h1 : setCell g i' j' (num : ℤ) r c = g r c :=
            setCell_other _ _ _ _ _ _ hne
          rw [ih i' (j' + 1) _ r c (by rw [h1]; exact hnz), h1]

/-! ### C3: invalid difficulty levels -/

/-- For a level outside {0,1,2,3}, `generate` ends in the `KeyError` raised
by the difficulty lookup, carrying the board as already mutated by the
seeder and the filler. -/
theorem generate_invalid_eq (s : ℕ → ℕ) (fuel : ℕ) (L : ℤ) (g : Grid)
    (h0 : L ≠ 0) (h1 : L ≠ 1) (h2 : L ≠ 2) (h3 : L ≠ 3) :
    generate s fuel L g =
      GenResult.keyErr (generate_board (generate_diagonals s g)).2 := by
  have hd : difficulty L = none := by
    simp [difficulty, h0, h1, h2, h3]
  unfold generate
  rw [hd]
  rfl

/-- C3 (amended): an unknown difficulty level always surfaces as a
`KeyError` (never silently defaulted to a valid level), but only when the
remover's loop starts — the board it leaves behind is the one already
mutated by the seeder and the filler, not the board at call time. -/
theorem generate_invalid_level_keyerr (s : ℕ → ℕ) (fuel : ℕ) (L : ℤ) (g : Grid)
    (h0 : L ≠ 0) (h1 : L ≠ 1) (h2 : L ≠ 2) (h3 : L ≠ 3) :
    (generate s fuel L g).isKeyErr = true ∧
    (generate s fuel L g).grid = (generate_board (generate_diagonals s g)).2 := by
  rw [generate_invalid_eq s fuel L g h0 h1 h2 h3]
  exact ⟨rfl, rfl⟩

theorem generate_invalid_level_keyerr_witness :
    (generate (fun _ => 0) 1 4 emptyGrid).isKeyErr = true ∧
    (generate (fun _ => 0) 1 4 emptyGrid).grid =
      (generate_board (generate_diagonals (fun _ => 0) emptyGrid)).2 :=
  generate_invalid_level_keyerr (fun _ => 0) 1 4 emptyGrid
    (by decide) (by decide) (by decide) (by decide)


/-- Root-level version of `gen_board_aux_keep`. -/
theorem generate_board_keep (g : Grid) (r c : ℕ) (h : g r c ≠ 0) :
    (generate_board g).2 r c = g r c := gen_board_aux_keep 90 0 0 g r c h

/-- C3 counterexample: calling `generate` with level 4 on the empty board
ends in the configuration error (`KeyError`), but the board it carries at
that moment already holds the seeded value 1 at cell (0, 0) — the Seeder and
the Filler mutated the Grid before the error surfaced, although the starting
board was all-zero. -/
theorem generate_invalid_level_cex :
    generate (fun _ => 0) 1 4 emptyGrid =
      GenResult.keyErr (generate_board (generate_diagonals (fun _ => 0) emptyGrid)).2 ∧
    (generate_board (generate_diagonals (fun _ => 0) emptyGrid)).2 0 0 = 1 ∧
    emptyGrid 0 0 = 0 := by
  have hseed : generate_diagonals (fun _ => 0) emptyGrid 0 0 = 1 := by decide
  refine ⟨generate_invalid_eq (fun _ => 0) 1 4 emptyGrid
    (by decide) (by decide) (by decide) (by decide), ?_, rfl⟩
  exact (generate_board_keep (generate_diagonals (fun _ => 0) emptyGrid) 0 0
    (by rw [hseed]; decide)).trans hseed

/-! ### The seeder as a pick chain -/

/-- The refill value of `nums`: the set {1..9} as a list. -/
def full9 : List ℤ := (List.range' 1 9).map Int.ofNat

/-- The values drawn by successive choose-and-remove steps. -/
def pickSeq (s : ℕ → ℕ) : ℕ → ℕ → List ℤ → List ℤ
  | 0, _, _ => []
  | n + 1, k, l => choose s k l :: pickSeq s n (k + 1) (l.erase (choose s k l))

/-- The list left after `n` choose-and-remove steps. -/
def eraseIter (s : ℕ → ℕ) : ℕ → ℕ → List ℤ → List ℤ
  | 0, _, l => l
  | n + 1, k, l => eraseIter s n (k + 1) (l.erase (choose s k l))

/-- Writing a pick chain along a list of cells. -/
def fillCells (s : ℕ → ℕ) : List (ℕ × ℕ) → ℕ → List ℤ → Grid → Grid
  | [], _, _, g => g
  | p :: ps, k, l, g =>
      fillCells s ps (k + 1) (l.erase (choose s k l)) (setCell g p.1 p.2 (choose s k l))

/-- The nine cells of diagonal box `K`, in the order the seeder writes them. -/
def boxCells (K : ℕ) : List (ℕ × ℕ) :=
  (List.range 9).map (fun t => (3 * K + t / 3, 3 * K + t % 3))

theorem choose_mem (s : ℕ → ℕ) (k : ℕ) (l : List ℤ) (h : l ≠ []) :
    choose s k l ∈ l := by
  have hlen : 0 < l.length := List.length_pos.mpr h
  have hlt : s k % l.length < l.length := Nat.mod_lt _ hlen
  rw [choose, List.getD_eq_getElem l 0 hlt]
  exact List.getElem_mem hlt

theorem eraseIter_length (s : ℕ → ℕ) :
    ∀ n k (l : List ℤ), n ≤ l.length → (eraseIter s n k l).length = l.length - n := by
  intro n
  induction n with
  | zero =>
    intro k l _
    simp [eraseIter]
  | succ n ih =>
    intro k l hn
    have hne : l ≠ [] := by
      intro h0
      rw [h0] at hn
      simp at hn
    have hlen := List.length_erase_of_mem (choose_mem s k l hne)
    rw [eraseIter, ih (k + 1) _ (by omega)]
    omega

theorem pickSeq_length (s : ℕ → ℕ) :
    ∀ n k (l : List ℤ), (pickSeq s n k l).length = n := by
  intro n
  induction n with
  | zero => intro k l; rfl
  | succ n ih => intro k l; simp [pickSeq, ih]

theorem pickSeq_perm (s : ℕ → ℕ) :
    ∀ n k (l : List ℤ), l.length = n → (pickSeq s n k l).Perm l := by
  intro n
  induction n with
  | zero =>
    intro k l hl
    rw [List.length_eq_zero] at hl
    rw [hl]
    rfl
  | succ n ih =>
    intro k l hl
    have hne : l ≠ [] := by
      intro h0
      rw [h0] at hl
      simp at hl
    have hmem := choose_mem s k l hne
    have hlen := List.length_erase_of_mem hmem
    have hih := ih (k + 1) (l.erase (choose s k l)) (by omega)
    rw [pickSeq]
    exact (hih.cons (choose s k l)).trans (List.perm_cons_erase hmem).symm

theorem fillCells_untouched (s : ℕ → ℕ) :
    ∀ (ps : List (ℕ × ℕ)) (k : ℕ) (l : List ℤ) (g : Grid) (r c : ℕ),
      (r, c) ∉ ps → fillCells s ps k l g r c = g r c := by
  intro ps
  induction ps with
  | nil =>
    intro k l g r c _
    rfl
  | cons p ps ih =>
    intro k l g r c hni
    rw [fillCells, ih _ _ _ r c (fun hmem => hni (List.mem_cons_of_mem _ hmem))]
    apply setCell_other
    intro ⟨h1, h2⟩
    exact hni (by rw [List.mem_cons]; left; rw [h1, h2])

theorem fillCells_get (s : ℕ → ℕ) :
    ∀ (ps : List (ℕ × ℕ)) (k : ℕ) (l : List ℤ) (g : Grid), ps.Nodup →
      ∀ t (ht : t < ps.length),
        fillCells s ps k l g (ps.get ⟨t, ht⟩).1 (ps.get ⟨t, ht⟩).2 =
          (pickSeq s ps.length k l).get ⟨t, by rw [pickSeq_length]; exact ht⟩ := by
  intro ps
  induction ps with
  | nil =>
    intro k l g _ t ht
    exact absurd ht (by simp)
  | cons p ps ih =>
    intro k l g hnd t ht
    cases t with
    | zero =>
      show fillCells s ps (k + 1) _ (setCell g p.1 p.2 (choose s k l)) p.1 p.2 = choose s k l
      rw [fillCells_untouched s ps _ _ _ p.1 p.2 (by
        intro hmem
        exact (List.nodup_cons.mp hnd).1 (by simpa using hmem))]
      exact setCell_self _ _ _ _
    | succ t =>
      show fillCells s ps (k + 1) _ _ (ps.get ⟨t, _⟩).1 (ps.get ⟨t, _⟩).2 = _
      rw [ih (k + 1) _ _ (List.nodup_cons.mp hnd).2 t (by
        simpa using Nat.lt_of_succ_lt_succ ht)]
      rfl

theorem full9_nodup : full9.Nodup := by decide

theorem full9_length : full9.length = 9 := by decide

theorem full9_mem_iff (v : ℤ) : v ∈ full9 ↔ 1 ≤ v ∧ v ≤ 9 := by
  constructor
  · intro h
    rw [full9, List.mem_map] at h
    obtain ⟨n, hn, hv⟩ := h
    rw [List.mem_range'_1] at hn
    have hv2 : (n : ℤ) = v := hv
    omega
  · intro ⟨h1, h9⟩
    rw [full9, List.mem_map]
    refine ⟨v.toNat, ?_, Int.toNat_of_nonneg (by omega)⟩
    rw [List.mem_range'_1]
    omega

/-! ### Evaluating the seeder band by band -/

theorem isEmpty_false_of_length {l : List ℤ} {n : ℕ} (h : l.length = n) (hn : n ≠ 0) :
    l.isEmpty = false := by
  cases l with
  | nil =>
    exfalso
    rw [List.length_nil] at h
    omega
  | cons a l => rfl

theorem diagStep_eq (s : ℕ → ℕ) (x : ℕ) (nums : List ℤ) (k : ℕ) (g : Grid) :
    diagStep s x (nums, k, g) =
      (eraseIter s 3 k (if nums.isEmpty then full9 else nums), k + 3,
        fillCells s [(x, x - x % 3), (x, x - x % 3 + 1), (x, x - x % 3 + 2)] k
          (if nums.isEmpty then full9 else nums) g) := rfl

theorem diagStep_eq_empty (s : ℕ → ℕ) (x k : ℕ) (g : Grid) :
    diagStep s x (([] : List ℤ), k, g) =
      (eraseIter s 3 k full9, k + 3,
        fillCells s [(x, x - x % 3), (x, x - x % 3 + 1), (x, x - x % 3 + 2)] k
          full9 g) := rfl

theorem diagStep_eq_nonempty (s : ℕ → ℕ) (x k : ℕ) (g : Grid) (nums : List ℤ)
    (h : nums.isEmpty = false) :
    diagStep s x (nums, k, g) =
      (eraseIter s 3 k nums, k + 3,
        fillCells s [(x, x - x % 3), (x, x - x % 3 + 1), (x, x - x % 3 + 2)] k
          nums g) := by
  rw [diagStep_eq s x nums k g, h]
  simp only [Bool.false_eq_true, if_false]

theorem fillCells_append (s : ℕ → ℕ) :
    ∀ (ps qs : List (ℕ × ℕ)) (k : ℕ) (l : List ℤ) (g : Grid),
      fillCells s (ps ++ qs) k l g =
        fillCells s qs (k + ps.length) (eraseIter s ps.length k l)
          (fillCells s ps k l g) := by
  intro ps
  induction ps with
  | nil =>
    intro qs k l g
    simp [fillCells, eraseIter]
  | cons p ps ih =>
    intro qs k l g
    show fillCells s (ps ++ qs) (k + 1) (l.erase (choose s k l))
        (setCell g p.1 p.2 (choose s k l)) = _
    rw [ih]
    show _ = fillCells s qs (k + (ps.length + 1))
        (eraseIter s ps.length (k + 1) (l.erase (choose s k l)))
        (fillCells s ps (k + 1) (l.erase (choose s k l))
          (setCell g p.1 p.2 (choose s k l)))
    rw [show k + 1 + ps.length = k + (ps.length + 1) from by omega]

theorem boxCells_eq (K : ℕ) : boxCells K =
    [(3 * K, 3 * K), (3 * K, 3 * K + 1), (3 * K, 3 * K + 2),
     (3 * K + 1, 3 * K), (3 * K + 1, 3 * K + 1), (3 * K + 1, 3 * K + 2),
     (3 * K + 2, 3 * K), (3 * K + 2, 3 * K + 1), (3 * K + 2, 3 * K + 2)] := rfl

theorem band_eval (s : ℕ → ℕ) (K k₀ : ℕ) (g : Grid) :
    diagStep s (3 * K + 2) (diagStep s (3 * K + 1)
      (diagStep s (3 * K) (([] : List ℤ), k₀, g))) =
      ([], k₀ + 9, fillCells s (boxCells K) k₀ full9 g) := by
  have hl1 : (eraseIter s 3 k₀ full9).length = 6 := by
    rw [eraseIter_length s 3 k₀ full9 (by rw [full9_length]; omega), full9_length]
  have hl2 : (eraseIter s 3 (k₀ + 3) (eraseIter s 3 k₀ full9)).length = 3 := by
    rw [eraseIter_length s 3 (k₀ + 3) _ (by omega)]
    omega
  have hl3 : (eraseIter s 3 (k₀ + 6)
      (eraseIter s 3 (k₀ + 3) (eraseIter s 3 k₀ full9))).length = 0 := by
    rw [eraseIter_length s 3 (k₀ + 6) _ (by omega)]
    omega
  have hnil := List.length_eq_zero.mp hl3
  have hE2 : (eraseIter s 3 k₀ full9).isEmpty = false :=
    isEmpty_false_of_length hl1 (by omega)
  have hE3 : (eraseIter s 3 (k₀ + 3) (eraseIter s 3 k₀ full9)).isEmpty = false :=
    isEmpty_false_of_length hl2 (by omega)
  rw [diagStep_eq_empty s (3 * K) k₀ g,
    show 3 * K - (3 * K) % 3 = 3 * K from by omega,
    diagStep_eq_nonempty s (3 * K + 1) (k₀ + 3) _ _ hE2,
    show (3 * K + 1) - (3 * K + 1) % 3 = 3 * K from by omega,
    diagStep_eq_nonempty s (3 * K + 2) (k₀ + 3 + 3) _ _ hE3,
    show (3 * K + 2) - (3 * K + 2) % 3 = 3 * K from by omega]
  rw [boxCells_eq]
  rw [show ([(3 * K, 3 * K), (3 * K, 3 * K + 1), (3 * K, 3 * K + 2),
      (3 * K + 1, 3 * K), (3 * K + 1, 3 * K + 1), (3 * K + 1, 3 * K + 2),
      (3 * K + 2, 3 * K), (3 * K + 2, 3 * K + 1), (3 * K + 2, 3 * K + 2)] :
        List (ℕ × ℕ)) =
      [(3 * K, 3 * K), (3 * K, 3 * K + 1), (3 * K, 3 * K + 2)] ++
      ([(3 * K + 1, 3 * K), (3 * K + 1, 3 * K + 1), (3 * K + 1, 3 * K + 2)] ++
       [(3 * K + 2, 3 * K), (3 * K + 2, 3 * K + 1), (3 * K + 2, 3 * K + 2)])
      from rfl]
  rw [fillCells_append, fillCells_append]
  rw [hnil]
  rfl

/-- The whole seeder: three pick chains of nine draws each, writing the
three diagonal boxes, consuming draws 0..26. -/
theorem seeder_eval (s : ℕ → ℕ) (g : Grid) :
    generate_diagonals_from s g =
      (fillCells s (boxCells 2) 18 full9
        (fillCells s (boxCells 1) 9 full9
          (fillCells s (boxCells 0) 0 full9 g)), 27) := by
  have h0 := band_eval s 0 0 g
  norm_num at h0
  have h1 := band_eval s 1 9 (fillCells s (boxCells 0) 0 full9 g)
  norm_num at h1
  have h2 := band_eval s 2 18
    (fillCells s (boxCells 1) 9 full9 (fillCells s (boxCells 0) 0 full9 g))
  norm_num at h2
  have hst : (List.range 9).foldl (fun st x => diagStep s x st)
      (([] : List ℤ), 0, g) =
      ([], 27, fillCells s (boxCells 2) 18 full9
        (fillCells s (boxCells 1) 9 full9
          (fillCells s (boxCells 0) 0 full9 g))) := by
    show diagStep s 8 (diagStep s 7 (diagStep s 6 (diagStep s 5 (diagStep s 4
      (diagStep s 3 (diagStep s 2 (diagStep s 1
        (diagStep s 0 (([] : List ℤ), 0, g))))))))) = _
    rw [h0, h1, h2]
  show (((List.range 9).foldl (fun st x => diagStep s x st)
      (([] : List ℤ), 0, g)).2.2,
    ((List.range 9).foldl (fun st x => diagStep s x st)
      (([] : List ℤ), 0, g)).2.1) = _
  rw [hst]

/-! ### Reading the seeded boxes -/

theorem boxCells_length (K : ℕ) : (boxCells K).length = 9 := by
  simp [boxCells]

theorem boxCells_get (K t : ℕ) (ht : t < (boxCells K).length) :
    (boxCells K).get ⟨t, ht⟩ = (3 * K + t / 3, 3 * K + t % 3) := by
  simp [boxCells, List.get_eq_getElem]

theorem boxCells_nodup (K : ℕ) : (boxCells K).Nodup := by
  apply List.Nodup.map
  · intro t u h
    injection h with h1 h2
    omega
  · exact List.nodup_range 9

theorem boxCells_mem_div (K r c : ℕ) (h : (r, c) ∈ boxCells K) :
    r / 3 = K ∧ c / 3 = K := by
  rw [boxCells, List.mem_map] at h
  obtain ⟨t, ht, heq⟩ := h
  rw [List.mem_range] at ht
  injection heq with h1 h2
  omega

theorem fillCells_box_read (s : ℕ → ℕ) (K k₀ : ℕ) (g : Grid) (a b : ℕ)
    (ha : a < 3) (hb : b < 3) :
    fillCells s (boxCells K) k₀ full9 g (3 * K + a) (3 * K + b) =
      (pickSeq s 9 k₀ full9).get ⟨3 * a + b, by rw [pickSeq_length]; omega⟩ := by
  have ht : 3 * a + b < (boxCells K).length := by
    rw [boxCells_length]
    omega
  have hget := fillCells_get s (boxCells K) k₀ full9 g (boxCells_nodup K) (3 * a + b) ht
  have hcell : (boxCells K).get ⟨3 * a + b, ht⟩ = (3 * K + a, 3 * K + b) := by
    rw [boxCells_get]
    congr 1 <;> omega
  rw [hcell] at hget
  exact hget

theorem generate_diagonals_eval (s : ℕ → ℕ) (g : Grid) :
    generate_diagonals s g =
      fillCells s (boxCells 2) 18 full9
        (fillCells s (boxCells 1) 9 full9
          (fillCells s (boxCells 0) 0 full9 g)) := by
  unfold generate_diagonals
  rw [seeder_eval]

/-- Cells outside the three diagonal boxes are untouched by the seeder. -/
theorem seeder_offdiag (s : ℕ → ℕ) (g : Grid) (r c : ℕ) (hrc : r / 3 ≠ c / 3) :
    generate_diagonals s g r c = g r c := by
  rw [generate_diagonals_eval]
  rw [fillCells_untouched s (boxCells 2) 18 full9 _ r c (by
    intro hmem
    have := boxCells_mem_div 2 r c hmem
    omega)]
  rw [fillCells_untouched s (boxCells 1) 9 full9 _ r c (by
    intro hmem
    have := boxCells_mem_div 1 r c hmem
    omega)]
  rw [fillCells_untouched s (boxCells 0) 0 full9 _ r c (by
    intro hmem
    have := boxCells_mem_div 0 r c hmem
    omega)]

/-- The value the seeder leaves in cell `(3K+a, 3K+b)` is the `(3a+b)`-th
draw of the `K`-th nine-draw pick chain. -/
theorem seeder_cell_value (s : ℕ → ℕ) (g : Grid) (K a b : ℕ)
    (hK : K < 3) (ha : a < 3) (hb : b < 3) :
    generate_diagonals s g (3 * K + a) (3 * K + b) =
      (pickSeq s 9 (9 * K) full9).get ⟨3 * a + b, by rw [pickSeq_length]; omega⟩ := by
  rw [generate_diagonals_eval]
  interval_cases K
  · rw [fillCells_untouched s (boxCells 2) 18 full9 _ _ _ (by
      intro hmem
      have := boxCells_mem_div 2 _ _ hmem
      omega)]
    rw [fillCells_untouched s (boxCells 1) 9 full9 _ _ _ (by
      intro hmem
      have := boxCells_mem_div 1 _ _ hmem
      omega)]
    exact fillCells_box_read s 0 0 _ a b ha hb
  · rw [fillCells_untouched s (boxCells 2) 18 full9 _ _ _ (by
      intro hmem
      have := boxCells_mem_div 2 _ _ hmem
      omega)]
    exact fillCells_box_read s 1 9 _ a b ha hb
  · exact fillCells_box_read s 2 18 _ a b ha hb

/-! ### C7: the seeder fills the diagonal boxes with permutations of 1..9 -/

/-- Helper form of the seeder specification. -/
theorem seeder_boxes_spec (s : ℕ → ℕ) (g : Grid)
    (hg : ∀ r < 9, ∀ c < 9, g r c = 0) :
    (∀ K < 3, ∀ a < 3, ∀ b < 3,
        1 ≤ generate_diagonals s g (3 * K + a) (3 * K + b) ∧
        generate_diagonals s g (3 * K + a) (3 * K + b) ≤ 9) ∧
    (∀ K < 3, ∀ a < 3, ∀ b < 3, ∀ a' < 3, ∀ b' < 3, (a, b) ≠ (a', b') →
        generate_diagonals s g (3 * K + a) (3 * K + b) ≠
          generate_diagonals s g (3 * K + a') (3 * K + b')) ∧
    (∀ K < 3, ∀ v : ℤ, 1 ≤ v → v ≤ 9 →
        ∃ a < 3, ∃ b < 3, generate_diagonals s g (3 * K + a) (3 * K + b) = v) ∧
    (∀ r < 9, ∀ c < 9, r / 3 ≠ c / 3 → generate_diagonals s g r c = 0) := by
  have hperm : ∀ k, (pickSeq s 9 k full9).Perm full9 :=
    fun k => pickSeq_perm s 9 k full9 full9_length
  have hnodup : ∀ k, (pickSeq s 9 k full9).Nodup :=
    fun k => ((hperm k).nodup_iff).mpr full9_nodup
  refine ⟨?_, ?_, ?_, ?_⟩
  · intro K hK a ha b hb
    rw [seeder_cell_value s g K a b hK ha hb]
    have hmem : (pickSeq s 9 (9 * K) full9).get
        ⟨3 * a + b, by rw [pickSeq_length]; omega⟩ ∈ pickSeq s 9 (9 * K) full9 :=
      List.get_mem _ _ _
    rw [(hperm (9 * K)).mem_iff, full9_mem_iff] at hmem
    exact hmem
  · intro K hK a ha b hb a' ha' b' hb' hne
    rw [seeder_cell_value s g K a b hK ha hb,
        seeder_cell_value s g K a' b' hK ha' hb']
    intro heq
    rw [(hnodup (9 * K)).get_inj_iff] at heq
    have hval : 3 * a + b = 3 * a' + b' := Fin.val_eq_of_eq heq
    apply hne
    have : a = a' ∧ b = b' := by omega
    rw [this.1, this.2]
  · intro K hK v hv1 hv9
    have hmem : v ∈ pickSeq s 9 (9 * K) full9 := by
      rw [(hperm (9 * K)).mem_iff, full9_mem_iff]
      exact ⟨hv1, hv9⟩
    rw [List.mem_iff_get] at hmem
    obtain ⟨⟨t, ht⟩, hvt⟩ := hmem
    rw [pickSeq_length] at ht
    refine ⟨t / 3, by omega, t % 3, by omega, ?_⟩
    rw [seeder_cell_value s g K (t / 3) (t % 3) hK (by omega) (by omega)]
    have hfin : (⟨3 * (t / 3) + t % 3, by rw [pickSeq_length]; omega⟩ :
        Fin (pickSeq s 9 (9 * K) full9).length) = ⟨t, by rw [pickSeq_length]; omega⟩ := by
      apply Fin.ext
      show 3 * (t / 3) + t % 3 = t
      omega
    rw [hfin]
    exact hvt
  · intro r hr c hc hrc
    rw [seeder_offdiag s g r c hrc]
    exact hg r hr c hc

/-- C7: from an all-zero board, the seeder puts a permutation of 1..9 into
each diagonal 3x3 box — every box value is in [1,9], values at distinct
cells of one box differ, every value of 1..9 occurs in every box — and
every cell outside the three diagonal boxes is still zero. -/
theorem generate_diagonals_spec (s : ℕ → ℕ) (g : Grid)
    (hg : ∀ r < 9, ∀ c < 9, g r c = 0) :
    (∀ K < 3, ∀ a < 3, ∀ b < 3,
        1 ≤ generate_diagonals s g (3 * K + a) (3 * K + b) ∧
        generate_diagonals s g (3 * K + a) (3 * K + b) ≤ 9) ∧
    (∀ K < 3, ∀ a < 3, ∀ b < 3, ∀ a' < 3, ∀ b' < 3, (a, b) ≠ (a', b') →
        generate_diagonals s g (3 * K + a) (3 * K + b) ≠
          generate_diagonals s g (3 * K + a') (3 * K + b')) ∧
    (∀ K < 3, ∀ v : ℤ, 1 ≤ v → v ≤ 9 →
        ∃ a < 3, ∃ b < 3, generate_diagonals s g (3 * K + a) (3 * K + b) = v) ∧
    (∀ r < 9, ∀ c < 9, r / 3 ≠ c / 3 → generate_diagonals s g r c = 0) :=
  seeder_boxes_spec s g hg

theorem generate_diagonals_spec_witness :
    (∀ K < 3, ∀ a < 3, ∀ b < 3,
        1 ≤ generate_diagonals (fun _ => 0) emptyGrid (3 * K + a) (3 * K + b) ∧
        generate_diagonals (fun _ => 0) emptyGrid (3 * K + a) (3 * K + b) ≤ 9) ∧
    (∀ K < 3, ∀ a < 3, ∀ b < 3, ∀ a' < 3, ∀ b' < 3, (a, b) ≠ (a', b') →
        generate_diagonals (fun _ => 0) emptyGrid (3 * K + a) (3 * K + b) ≠
          generate_diagonals (fun _ => 0) emptyGrid (3 * K + a') (3 * K + b')) ∧
    (∀ K < 3, ∀ v : ℤ, 1 ≤ v → v ≤ 9 →
        ∃ a < 3, ∃ b < 3,
          generate_diagonals (fun _ => 0) emptyGrid (3 * K + a) (3 * K + b) = v) ∧
    (∀ r < 9, ∀ c < 9, r / 3 ≠ c / 3 →
        generate_diagonals (fun _ => 0) emptyGrid r c = 0) :=
  generate_diagonals_spec (fun _ => 0) emptyGrid (fun _ _ _ _ => rfl)

/-! ### Consistency of the seeded board -/

theorem seeder_consistent (s : ℕ → ℕ) (g : Grid)
    (hg : ∀ r < 9, ∀ c < 9, g r c = 0) :
    consistent (generate_diagonals s g) := by
  obtain ⟨hrange, hdist, _, hzero⟩ := seeder_boxes_spec s g hg
  constructor
  · intro r hr c hc hnz
    by_cases hd : r / 3 = c / 3
    · have h := hrange (r / 3) (by omega) (r % 3) (by omega) (c % 3) (by omega)
      rw [show 3 * (r / 3) + r % 3 = r from by omega,
          show 3 * (r / 3) + c % 3 = c from by omega] at h
      exact h
    · exact absurd (hzero r hr c hc hd) hnz
  · intro r hr c hc r' hr' c' hc' hne hu hnz
    have hd : r / 3 = c / 3 := by
      by_contra hdd
      exact hnz (hzero r hr c hc hdd)
    by_cases hd' : r' / 3 = c' / 3
    · have hK : r / 3 = r' / 3 ∧ c / 3 = c' / 3 := by
        rcases hu with h | h | ⟨h1, h2⟩ <;> omega
      have hpairne : ¬((r % 3, c % 3) = (r' % 3, c' % 3)) := by
        intro hh
        injection hh with h1 h2
        apply hne
        have : r = r' ∧ c = c' := by omega
        rw [this.1, this.2]
      have h := hdist (r / 3) (by omega) (r % 3) (by omega) (c % 3) (by omega)
        (r' % 3) (by omega) (c' % 3) (by omega) hpairne
      rw [show 3 * (r / 3) + r % 3 = r from by omega,
          show 3 * (r / 3) + c % 3 = c from by omega,
          show 3 * (r / 3) + r' % 3 = r' from by omega,
          show 3 * (r / 3) + c' % 3 = c' from by omega] at h
      exact h
    · rw [hzero r' hr' c' hc' hd']
      exact hnz

/-! ### Counting non-zero cells -/

theorem countNonzero_all (g : Grid) (h : ∀ r < 9, ∀ c < 9, g r c ≠ 0) :
    countNonzero g = 81 := by
  unfold countNonzero
  rw [Finset.filter_true_of_mem, Finset.card_range]
  intro m hm
  rw [Finset.mem_range] at hm
  exact h (m / 9) (by omega) (m % 9) (by omega)

theorem countNonzero_congr (g g' : Grid)
    (h : ∀ r < 9, ∀ c < 9, (g r c ≠ 0 ↔ g' r c ≠ 0)) :
    countNonzero g = countNonzero g' := by
  unfold countNonzero
  congr 1
  apply Finset.filter_congr
  intro m hm
  rw [Finset.mem_range] at hm
  exact h (m / 9) (by omega) (m % 9) (by omega)

/-- When the first three bands of a zero board have been seeded, exactly the
27 diagonal cells are non-zero. -/
theorem countNonzero_seed (s : ℕ → ℕ) (g : Grid)
    (hg : ∀ r < 9, ∀ c < 9, g r c = 0) :
    countNonzero (generate_diagonals s g) = 27 := by
  obtain ⟨hrange, _, _, hzero⟩ := seeder_boxes_spec s g hg
  have hstep : countNonzero (generate_diagonals s g) =
      countNonzero (fun r c => if r / 3 = c / 3 then 1 else 0) := by
    apply countNonzero_congr
    intro r hr c hc
    by_cases hd : r / 3 = c / 3
    · have h := hrange (r / 3) (by omega) (r % 3) (by omega) (c % 3) (by omega)
      rw [show 3 * (r / 3) + r % 3 = r from by omega,
          show 3 * (r / 3) + c % 3 = c from by omega] at h
      simp only [hd, if_true]
      constructor
      · intro _
        omega
      · intro _
        omega
    · rw [hzero r hr c hc hd]
      simp [hd]
  rw [hstep]
  decide

/-- Zeroing one non-zero in-range cell lowers the count by one. -/
theorem countNonzero_set_zero (g : Grid) (r c : ℕ)
    (hr : r < 9) (hc : c < 9) (hnz : g r c ≠ 0) :
    countNonzero g = countNonzero (setCell g r c 0) + 1 := by
  unfold countNonzero
  have hmem : 9 * r + c ∈ (Finset.range 81).filter (fun m => g (m / 9) (m % 9) ≠ 0) := by
    rw [Finset.mem_filter, Finset.mem_range]
    constructor
    · omega
    · rw [show (9 * r + c) / 9 = r from by omega, show (9 * r + c) % 9 = c from by omega]
      exact hnz
  have hfe : (Finset.range 81).filter (fun m => setCell g r c 0 (m / 9) (m % 9) ≠ 0) =
      ((Finset.range 81).filter (fun m => g (m / 9) (m % 9) ≠ 0)).erase (9 * r + c) := by
    ext m
    rw [Finset.mem_erase, Finset.mem_filter, Finset.mem_filter, Finset.mem_range]
    constructor
    · intro ⟨hm, hp⟩
      by_cases hmr : m = 9 * r + c
      · exfalso
        apply hp
        rw [hmr, show (9 * r + c) / 9 = r from by omega,
          show (9 * r + c) % 9 = c from by omega, setCell_self]
      · refine ⟨hmr, hm, ?_⟩
        rw [setCell_other _ _ _ _ _ _ (by
          intro ⟨h1, h2⟩
          apply hmr
          omega)] at hp
        exact hp
    · intro ⟨hmr, hm, hp⟩
      refine ⟨hm, ?_⟩
      rw [setCell_other _ _ _ _ _ _ (by
        intro ⟨h1, h2⟩
        apply hmr
        omega)]
      exact hp
  rw [hfe, Finset.card_erase_of_mem hmem]
  have hpos : 0 < ((Finset.range 81).filter (fun m => g (m / 9) (m % 9) ≠ 0)).card :=
    Finset.card_pos.mpr ⟨9 * r + c, hmem⟩
  omega

/-! ### The remover -/

/-- A successful rejection-sampling search returns an in-range, currently
non-zero cell. -/
theorem drawNonzero_some (s : ℕ → ℕ) :
    ∀ fuel k (g : Grid) r c k',
      drawNonzero s fuel k g = some (r, c, k') →
      r < 9 ∧ c < 9 ∧ g r c ≠ 0 := by
  intro fuel
  induction fuel with
  | zero =>
    intro k g r c k' h
    exact absurd h (by simp [drawNonzero])
  | succ fuel ih =>
    intro k g r c k' h
    rw [drawNonzero] at h
    by_cases hnz : g (s k % 9) (s (k + 1) % 9) ≠ 0
    · rw [if_pos hnz] at h
      injection h with h1
      injection h1 with hr h2
      injection h2 with hc _
      rw [← hr, ← hc]
      refine ⟨Nat.mod_lt _ (by norm_num), Nat.mod_lt _ (by norm_num), hnz⟩
    · rw [if_neg hnz] at h
      exact ih (k + 2) g r c k' h

/-- A completed removal run zeroed exactly `n` cells: the non-zero count
drops by exactly `n`, and every cell either keeps its value or is zero. -/
theorem removeFields_some (s : ℕ → ℕ) (fuel : ℕ) :
    ∀ n k (g : Grid) g' k',
      removeFields s fuel n k g = some (g', k') →
      countNonzero g = countNonzero g' + n ∧
      (∀ r c, g' r c = g r c ∨ g' r c = 0) := by
  intro n
  induction n with
  | zero =>
    intro k g g' k' h
    rw [removeFields] at h
    injection h with h1
    injection h1 with hg _
    rw [← hg]
    exact ⟨rfl, fun r c => Or.inl rfl⟩
  | succ n ih =>
    intro k g g' k' h
    rw [removeFields] at h
    cases hdraw : drawNonzero s fuel k g with
    | none =>
      rw [hdraw] at h
      exact absurd h (by simp)
    | some t =>
      rw [hdraw] at h
      obtain ⟨r, c, k2⟩ := t
      obtain ⟨hr, hc, hnz⟩ := drawNonzero_some s fuel k g r c k2 hdraw
      obtain ⟨hcount, hkeep⟩ := ih k2 (setCell g r c 0) g' k' h
      constructor
      · rw [countNonzero_set_zero g r c hr hc hnz, hcount]
        omega
      · intro a b
        rcases hkeep a b with hk | hk
        · by_cases hab : a = r ∧ b = c
          · right
            rw [hk, hab.1, hab.2, setCell_self]
          · left
            rw [hk, setCell_other _ _ _ _ _ _ hab]
        · right
          exact hk

/-- The blank-count table only holds values in [35, 60]. -/
theorem difficulty_bounds (L : ℤ) (n : ℕ) (h : difficulty L = some n) :
    35 ≤ n ∧ n ≤ 60 := by
  unfold difficulty at h
  split_ifs at h <;> (injection h with h1; omega)

/-- `generate`, written as a single match (definitional unfolding). -/
theorem generate_eq (s : ℕ → ℕ) (fuel : ℕ) (L : ℤ) (g : Grid) :
    generate s fuel L g =
      match difficulty L with
      | none => GenResult.keyErr ((generate_board ((generate_diagonals_from s g).1)).2)
      | some n =>
        match removeFields s fuel n (generate_diagonals_from s g).2
            ((generate_board ((generate_diagonals_from s g).1)).2) with
        | none => GenResult.stuck
        | some p => GenResult.ok p.1 := rfl

theorem generate_eq_some (s : ℕ → ℕ) (fuel : ℕ) (L : ℤ) (g : Grid) (n : ℕ)
    (hL : difficulty L = some n) :
    generate s fuel L g =
      match removeFields s fuel n (generate_diagonals_from s g).2
          ((generate_board ((generate_diagonals_from s g).1)).2) with
      | none => GenResult.stuck
      | some p => GenResult.ok p.1 := by
  rw [generate_eq, hL]

/-- The seeder's grid, as the first component of the state-passing form. -/
theorem generate_diagonals_def (s : ℕ → ℕ) (g : Grid) :
    (generate_diagonals_from s g).1 = generate_diagonals s g := rfl

/-- The seeder consumes exactly 27 draws. -/
theorem seeder_draws (s : ℕ → ℕ) (g : Grid) :
    (generate_diagonals_from s g).2 = 27 := by
  rw [seeder_eval]

/-- Unfolding a normally-returning `generate` run: the remover completed on
the seeded-and-filled board. -/
theorem generate_ok_elim (s : ℕ → ℕ) (fuel : ℕ) (L : ℤ) (g g' : Grid) (n : ℕ)
    (hL : difficulty L = some n)
    (hok : generate s fuel L g = GenResult.ok g') :
    ∃ k', removeFields s fuel n (generate_diagonals_from s g).2
      ((generate_board ((generate_diagonals_from s g).1)).2) = some (g', k') := by
  rw [generate_eq_some s fuel L g n hL] at hok
  cases hrm : removeFields s fuel n (generate_diagonals_from s g).2
      ((generate_board ((generate_diagonals_from s g).1)).2) with
  | none =>
    rw [hrm] at hok
    exact absurd hok (by simp)
  | some p =>
    rw [hrm] at hok
    injection hok with h1
    exact ⟨p.2, by rw [← h1]⟩

/-! ### C6: the count of non-zero cells after generate -/

/-- C6: when `generate(L)` on an all-zero board returns normally with the
configured blank count `n` (35/43/55/60 for L = 0/1/2/3), the final board
has exactly `81 - n` non-zero cells, the pre-removal board is fully solved,
and every remaining non-zero cell still holds its solved value. -/
theorem generate_nonzero_count (s : ℕ → ℕ) (fuel : ℕ) (L : ℤ) (g g' : Grid) (n : ℕ)
    (hg : ∀ r < 9, ∀ c < 9, g r c = 0)
    (hL : difficulty L = some n)
    (hok : generate s fuel L g = GenResult.ok g') :
    countNonzero g' = 81 - n ∧
    solvedGrid (generate_board (generate_diagonals s g)).2 ∧
    (∀ r c, g' r c = (generate_board (generate_diagonals s g)).2 r c ∨ g' r c = 0) := by
  obtain ⟨k', hrm⟩ := generate_ok_elim s fuel L g g' n hL hok
  rw [generate_diagonals_def] at hrm
  obtain ⟨hcount, hkeep⟩ := removeFields_some s fuel n _ _ g' k' hrm
  have hcons := seeder_consistent s g hg
  cases hfill : (generate_board (generate_diagonals s g)).1 with
  | false =>
    exfalso
    have hrest := generate_board_restore _ hfill
    rw [hrest, countNonzero_seed s g hg] at hcount
    have := difficulty_bounds L n hL
    omega
  | true =>
    obtain ⟨hsol, _⟩ := generate_board_true_solved _ hcons hfill
    have h81 : countNonzero (generate_board (generate_diagonals s g)).2 = 81 :=
      countNonzero_all _ (solvedGrid_nonzero _ hsol)
    rw [h81] at hcount
    exact ⟨by omega, hsol, hkeep⟩

/-! ### Running the remover along a planned list of cells -/

/-- Zeroing a list of cells in order. -/
def zeroCells (g : Grid) : List (ℕ × ℕ) → Grid
  | [] => g
  | p :: ps => zeroCells (setCell g p.1 p.2 0) ps

/-- If the stream encodes a duplicate-free list of cells, all non-zero in
the current board, the remover removes exactly those cells, two draws per
cell. -/
theorem removeFields_run (s : ℕ → ℕ) (fuel : ℕ) :
    ∀ (ps : List (ℕ × ℕ)) (k : ℕ) (g : Grid),
      (∀ i < ps.length, s (k + 2 * i) % 9 = (ps.getD i (0, 0)).1 ∧
        s (k + 2 * i + 1) % 9 = (ps.getD i (0, 0)).2) →
      (∀ p ∈ ps, g p.1 p.2 ≠ 0) →
      ps.Nodup →
      removeFields s (fuel + 1) ps.length k g =
        some (zeroCells g ps, k + 2 * ps.length) := by
  intro ps
  induction ps with
  | nil =>
    intro k g _ _ _
    simp [removeFields, zeroCells]
  | cons p ps ih =>
    intro k g hs hnz hnd
    have h0 := hs 0 (by simp)
    simp only [Nat.mul_zero, Nat.add_zero, List.getD_cons_zero] at h0
    have hd : drawNonzero s (fuel + 1) k g = some (p.1, p.2, k + 2) := by
      show (if g (s k % 9) (s (k + 1) % 9) ≠ 0
        then some (s k % 9, s (k + 1) % 9, k + 2)
        else drawNonzero s fuel (k + 2) g) = _
      rw [h0.1, h0.2, if_pos (hnz p (List.mem_cons_self _ _))]
    show (match drawNonzero s (fuel + 1) k g with
      | none => none
      | some (r, c, k') => removeFields s (fuel + 1) ps.length k' (setCell g r c 0)) = _
    rw [hd]
    show removeFields s (fuel + 1) ps.length (k + 2) (setCell g p.1 p.2 0) = _
    rw [ih (k + 2) (setCell g p.1 p.2 0) ?hs ?hnz (List.nodup_cons.mp hnd).2]
    case hs =>
      intro i hi
      have := hs (i + 1) (by simp; omega)
      rw [show k + 2 * (i + 1) = k + 2 + 2 * i from by omega,
        List.getD_cons_succ] at this
      exact this
    case hnz =>
      intro q hq
      have hqp : q ≠ p := by
        intro hh
        exact (List.nodup_cons.mp hnd).1 (hh ▸ hq)
      rw [setCell_other _ _ _ _ _ _ (by
        intro hh
        exact hqp (Prod.ext hh.1 hh.2))]
      exact hnz q (List.mem_cons_of_mem _ hq)
    rw [show k + 2 + 2 * ps.length = k + 2 * (ps.length + 1) from by omega]
    rfl

/-- On a board with no empty in-range cell, the filler skips through every
cell and reports success without modifying anything. -/
theorem gen_board_aux_all_nonzero :
    ∀ fuel i j (g : Grid), i ≤ 8 → j ≤ 9 → 82 ≤ fuel + 9 * i + j →
      (∀ r < 9, ∀ c < 9, g r c ≠ 0) →
      gen_board_aux fuel i j g = (true, g) := by
  intro fuel
  induction fuel with
  | zero =>
    intro i j g hi hj hfuel _
    omega
  | succ fuel ih =>
    intro i j g hi hj hfuel hnz
    rw [gen_board_aux_succ]
    by_cases hbase : i = 8 ∧ j = 9
    · rw [if_pos hbase]
    · rw [if_neg hbase]
      have hij : (if j = 9 then (i + 1, 0) else (i, j)).1 ≤ 8 ∧
          (if j = 9 then (i + 1, 0) else (i, j)).2 ≤ 8 ∧
          9 * (if j = 9 then (i + 1, 0) else (i, j)).1 +
            (if j = 9 then (i + 1, 0) else (i, j)).2 = 9 * i + j := by
        by_cases h9 : j = 9
        · rw [if_pos h9]
          have : ¬(i = 8) := fun h8 => hbase ⟨h8, h9⟩
          refine ⟨by omega, by omega, by omega⟩
        · rw [if_neg h9]
          exact ⟨hi, by omega, rfl⟩
      obtain ⟨hi8, hj8, hcur⟩ := hij
      rw [if_pos (hnz _ (by omega) _ (by omega))]
      exact ih _ _ g hi8 (by omega) (by omega) hnz

/-! ### A concrete, fully analysed run of generate -/

/-- Root-call completeness, packaged generically. -/
theorem generate_board_complete (g gs : Grid) (hsol : solvedGrid gs)
    (hagree : ∀ x < 9, ∀ y < 9, g x y ≠ 0 → g x y = gs x y) :
    (generate_board g).1 = true :=
  gen_board_aux_complete 90 0 0 g gs (by omega) (by omega) (by omega) hsol hagree

/-- A solved grid whose three diagonal boxes are each the canonical box
1..9 in reading order (a cyclic-shift construction). -/
def gSol : Grid := fun r c =>
  3 * ((r % 3 + c / 3 + 2 * (r / 3)) % 3) + ((c % 3 + r / 3 + 2 * (c / 3)) % 3) + 1

theorem gSol_solved : solvedGrid gSol := by decide

/-- 35 distinct in-range cells (rows 1..3 entirely, row 4 columns 0..7),
the removal plan of the concrete run. -/
def remCells : List (ℕ × ℕ) :=
  ((List.range 27).map (fun t => (1 + t / 9, t % 9))) ++
  ((List.range 8).map (fun t => (4, t)))

/-- The concrete draw stream: draws 0..26 return 0 (the seeder then writes
the canonical box into each diagonal box), and from draw 27 on the stream
spells out `remCells`, one (row, col) pair per removal. -/
def wStream : ℕ → ℕ := fun k =>
  if k < 27 then 0
  else if (k - 27) % 2 = 0 then (remCells.getD ((k - 27) / 2) (0, 0)).1
  else (remCells.getD ((k - 27) / 2) (0, 0)).2

theorem seed_agree_gSol : ∀ x < 9, ∀ y < 9,
    generate_diagonals wStream emptyGrid x y ≠ 0 →
    generate_diagonals wStream emptyGrid x y = gSol x y := by decide

theorem wStream_spells : ∀ i < remCells.length,
    wStream (27 + 2 * i) % 9 = (remCells.getD i (0, 0)).1 ∧
    wStream (27 + 2 * i + 1) % 9 = (remCells.getD i (0, 0)).2 := by decide

theorem remCells_nodup : remCells.Nodup := by decide

theorem remCells_inrange : ∀ p ∈ remCells, p.1 < 9 ∧ p.2 < 9 := by decide

theorem wseed_consistent : consistent (generate_diagonals wStream emptyGrid) :=
  seeder_consistent wStream emptyGrid (fun _ _ _ _ => rfl)

theorem wfill_true : (generate_board (generate_diagonals wStream emptyGrid)).1 = true :=
  generate_board_complete (generate_diagonals wStream emptyGrid) gSol
    gSol_solved seed_agree_gSol

theorem wfill_solved :
    solvedGrid (generate_board (generate_diagonals wStream emptyGrid)).2 :=
  (generate_board_true_solved _ wseed_consistent wfill_true).1

/-- The concrete run returns normally, with the planned 35 cells blanked. -/
theorem wrun_ok : generate wStream 1 0 emptyGrid =
    GenResult.ok (zeroCells ((generate_board (generate_diagonals wStream emptyGrid)).2)
      remCells) := by
  rw [generate_eq_some wStream 1 0 emptyGrid 35 (by decide)]
  rw [seeder_draws, generate_diagonals_def]
  have hnz : ∀ p ∈ remCells,
      (generate_board (generate_diagonals wStream emptyGrid)).2 p.1 p.2 ≠ 0 := by
    intro p hp
    exact solvedGrid_nonzero _ wfill_solved p.1 (remCells_inrange p hp).1
      p.2 (remCells_inrange p hp).2
  have hrun := removeFields_run wStream 0 remCells 27
    ((generate_board (generate_diagonals wStream emptyGrid)).2)
    wStream_spells hnz remCells_nodup
  have hlen : remCells.length = 35 := by decide
  rw [hlen] at hrun
  norm_num at hrun
  rw [hrun]

theorem generate_nonzero_count_witness :
    countNonzero (zeroCells ((generate_board (generate_diagonals wStream emptyGrid)).2)
      remCells) = 81 - 35 ∧
    solvedGrid (generate_board (generate_diagonals wStream emptyGrid)).2 ∧
    (∀ r c, zeroCells ((generate_board (generate_diagonals wStream emptyGrid)).2)
        remCells r c =
        (generate_board (generate_diagonals wStream emptyGrid)).2 r c ∨
      zeroCells ((generate_board (generate_diagonals wStream emptyGrid)).2)
        remCells r c = 0) :=
  generate_nonzero_count wStream 1 0 emptyGrid
    (zeroCells ((generate_board (generate_diagonals wStream emptyGrid)).2) remCells) 35
    (fun _ _ _ _ => rfl) (by decide) wrun_ok

/-! ### C2: generate does not clear the board first -/

theorem zeroCells_untouched :
    ∀ (ps : List (ℕ × ℕ)) (g : Grid) (r c : ℕ), (r, c) ∉ ps →
      zeroCells g ps r c = g r c := by
  intro ps
  induction ps with
  | nil =>
    intro g r c _
    rfl
  | cons p ps ih =>
    intro g r c hni
    rw [zeroCells, ih _ r c (fun hmem => hni (List.mem_cons_of_mem _ hmem))]
    apply setCell_other
    intro ⟨h1, h2⟩
    exact hni (by rw [List.mem_cons]; left; rw [h1, h2])

/-- Root-level version of the skip-through lemma. -/
theorem generate_board_all_nonzero (g : Grid) (h : ∀ r < 9, ∀ c < 9, g r c ≠ 0) :
    generate_board g = (true, g) :=
  gen_board_aux_all_nonzero 90 0 0 g (by omega) (by omega) (by omega) h

/-- A prior board entirely filled with 5s. -/
def gFive : Grid := fun _ _ => 5

/-- The run of `generate(0)` on the all-5 board with the same stream:
the seeder overwrites the diagonal, the filler skips every (non-zero) cell,
and the remover blanks the planned 35 cells. -/
theorem wrun_five_ok : generate wStream 1 0 gFive =
    GenResult.ok (zeroCells (generate_diagonals wStream gFive) remCells) := by
  rw [generate_eq_some wStream 1 0 gFive 35 (by decide)]
  rw [seeder_draws, generate_diagonals_def]
  have hnzA : ∀ r < 9, ∀ c < 9, generate_diagonals wStream gFive r c ≠ 0 := by decide
  have hgb2 : (generate_board (generate_diagonals wStream gFive)).2 =
      generate_diagonals wStream gFive := by
    rw [generate_board_all_nonzero _ hnzA]
  rw [hgb2]
  have hnzL : ∀ p ∈ remCells, generate_diagonals wStream gFive p.1 p.2 ≠ 0 := by
    intro p hp
    exact hnzA p.1 (remCells_inrange p hp).1 p.2 (remCells_inrange p hp).2
  have hrun := removeFields_run wStream 0 remCells 27
    (generate_diagonals wStream gFive) wStream_spells hnzL remCells_nodup
  have hlen : remCells.length = 35 := by decide
  rw [hlen] at hrun
  norm_num at hrun
  rw [hrun]

/-- C2 counterexample: with one and the same draw stream, `generate(0)` on
the all-5 board and `generate(0)` on the cleared board give different
results — generate's behaviour does depend on the board contents before the
call, because it never clears the board. -/
theorem generate_no_clear_cex :
    generate wStream 1 0 gFive ≠ generate wStream 1 0 (clear_board gFive) := by
  intro heq
  have hcb : clear_board gFive = emptyGrid := rfl
  rw [wrun_five_ok, hcb, wrun_ok] at heq
  injection heq with hgr
  have h3 : zeroCells (generate_diagonals wStream gFive) remCells 0 3 = 5 := by
    rw [zeroCells_untouched remCells _ 0 3 (by decide),
      seeder_offdiag wStream gFive 0 3 (by decide)]
    rfl
  have h4 : zeroCells (generate_diagonals wStream gFive) remCells 0 4 = 5 := by
    rw [zeroCells_untouched remCells _ 0 4 (by decide),
      seeder_offdiag wStream gFive 0 4 (by decide)]
    rfl
  have hF3 : zeroCells ((generate_board (generate_diagonals wStream emptyGrid)).2)
      remCells 0 3 = (generate_board (generate_diagonals wStream emptyGrid)).2 0 3 :=
    zeroCells_untouched remCells _ 0 3 (by decide)
  have hF4 : zeroCells ((generate_board (generate_diagonals wStream emptyGrid)).2)
      remCells 0 4 = (generate_board (generate_diagonals wStream emptyGrid)).2 0 4 :=
    zeroCells_untouched remCells _ 0 4 (by decide)
  have hne : (generate_board (generate_diagonals wStream emptyGrid)).2 0 3 ≠
      (generate_board (generate_diagonals wStream emptyGrid)).2 0 4 :=
    wfill_solved.2 0 (by omega) 3 (by omega) 0 (by omega) 4 (by omega)
      (by decide) (Or.inl rfl)
  rw [hgr, hF3] at h3
  rw [hgr, hF4] at h4
  exact hne (h3.trans h4.symm)

/-- C2 (amended): `generate(level)` does not itself clear the board; the
claimed equivalence holds exactly in the situation the lifecycle prescribes,
namely when the board was just cleared: running `generate` after
`clear_board` is the same as running it on the initial all-zero board. -/
theorem generate_after_clear_board (s : ℕ → ℕ) (fuel : ℕ) (L : ℤ) (g : Grid) :
    generate s fuel L (clear_board g) = generate s fuel L emptyGrid := rfl
